import Mathlib

/-!
Shallow embedding of the trending-delta engine of `trending-discovery.py`
(`find_new_trending_items`), the core of the `trending-cron` repository.

Timestamps (`collected_at`, `last_modified`) are modelled as `Int` values in
seconds, so `timedelta(days = d)` is `86400 * d`.  Pandas `NaT` (the value of
`Series.max()` on an empty series, which then propagates through `max`,
subtraction and comparisons) is modelled as `Option Int` with `none` for `NaT`;
every comparison against `NaT` yields `False`, exactly as in pandas.

`DataFrame.sort_values` on several columns uses `numpy.lexsort`, a stable sort
by the lexicographic key, and the single-column descending sort that feeds
`drop_duplicates(keep = 'first')` is modelled by the same stable sort (the tie
between equal keys is broken by the original relative order, which is the
deterministic choice the pipeline relies on).  We use `List.insertionSort`,
which is stable, as the executable stable sort.
-/

/-- One row of the stored snapshot tables, as produced by `collect_trending.py`
and consumed by `find_new_trending_items`. -/
structure SnapshotRecord where
  id : String
  author : String
  downloads : Int
  likes : Int
  tags : List String
  last_modified : Int
  created_at : Option Int
  sha : String
  collected_at : Int
deriving Repr, DecidableEq

/-- The dictionary returned by `find_new_trending_items`. -/
structure DeltaResult where
  new_models : List SnapshotRecord
  new_datasets : List SnapshotRecord
  new_models_count : Nat
  new_datasets_count : Nat
deriving Repr, DecidableEq

/-- `timedelta(days = d)` in seconds. -/
def timedeltaDays (d : Nat) : Int := 86400 * (d : Int)

/-- `t < c` for a timestamp `t` and a possibly-`NaT` bound `c`; any comparison
with `NaT` is `false` in pandas. -/
def ltOpt (t : Int) (c : Option Int) : Bool :=
  match c with
  | none => false
  | some v => decide (t < v)

/-- `t >= c` for a timestamp `t` and a possibly-`NaT` bound `c`; any comparison
with `NaT` is `false` in pandas. -/
def geOpt (t : Int) (c : Option Int) : Bool :=
  match c with
  | none => false
  | some v => decide (v ≤ t)

/-- `x - timedelta(days = d)` where `x` may be `NaT` (`NaT - timedelta = NaT`). -/
def subDays (t : Option Int) (d : Nat) : Option Int :=
  t.map (fun v => v - timedeltaDays d)

/-- `Series.max()` over the `collected_at` column: `NaT` (`none`) on an empty
frame, the maximum otherwise. -/
def seriesMax : List SnapshotRecord → Option Int
  | [] => none
  | r :: rest => some (rest.foldl (fun acc s => max acc s.collected_at) r.collected_at)

/-- Python's `b > a` on possibly-`NaT` operands: any comparison involving `NaT`
is `False`. -/
def pyGt : Option Int → Option Int → Bool
  | some b, some a => decide (a < b)
  | _, _ => false

/-- Python's builtin `max(a, b)`: returns `b` iff `b > a`, else `a`.  Note the
asymmetry on `NaT`: `max(NaT, t) = NaT` but `max(t, NaT) = t`. -/
def pyMax (a b : Option Int) : Option Int :=
  if pyGt b a then b else a

/-- Line 42 of `trending-discovery.py`:
`max(models_df['collected_at'].max(), datasets_df['collected_at'].max())`. -/
def latestDate (mdf ddf : List SnapshotRecord) : Option Int :=
  pyMax (seriesMax mdf) (seriesMax ddf)

/-- The lexicographic key of `sort_values(['collected_at', 'downloads'],
ascending = [True, False])`. -/
def lexLe (r s : SnapshotRecord) : Prop :=
  r.collected_at < s.collected_at ∨
    (r.collected_at = s.collected_at ∧ s.downloads ≤ r.downloads)

instance : DecidableRel lexLe := fun r s => by
  unfold lexLe; infer_instance

instance : IsTotal SnapshotRecord lexLe where
  total r s := by
    unfold lexLe
    rcases lt_trichotomy r.collected_at s.collected_at with h | h | h
    · exact Or.inl (Or.inl h)
    · rcases le_total s.downloads r.downloads with hd | hd
      · exact Or.inl (Or.inr ⟨h, hd⟩)
      · exact Or.inr (Or.inr ⟨h.symm, hd⟩)
    · exact Or.inr (Or.inl h)

instance : IsTrans SnapshotRecord lexLe where
  trans r s t hrs hst := by
    unfold lexLe at *
    rcases hrs with h1 | ⟨he1, hd1⟩
    · rcases hst with h2 | ⟨he2, _⟩
      · exact Or.inl (h1.trans h2)
      · exact Or.inl (he2 ▸ h1)
    · rcases hst with h2 | ⟨he2, hd2⟩
      · exact Or.inl (he1 ▸ h2)
      · exact Or.inr ⟨he1.trans he2, hd2.trans hd1⟩

/-- Ordering by `downloads` descending (the within-generation order of the
top-N truncation). -/
def downLe (r s : SnapshotRecord) : Prop := s.downloads ≤ r.downloads

instance : DecidableRel downLe := fun r s => by
  unfold downLe; infer_instance

instance : IsTotal SnapshotRecord downLe where
  total r s := le_total s.downloads r.downloads

instance : IsTrans SnapshotRecord downLe where
  trans _ _ _ h1 h2 := le_trans h2 h1

/-- Ordering by `collected_at` descending
(`sort_values('collected_at', ascending = False)`). -/
def collLe (r s : SnapshotRecord) : Prop := s.collected_at ≤ r.collected_at

instance : DecidableRel collLe := fun r s => by
  unfold collLe; infer_instance

instance : IsTotal SnapshotRecord collLe where
  total r s := le_total s.collected_at r.collected_at

instance : IsTrans SnapshotRecord collLe where
  trans _ _ _ h1 h2 := le_trans h2 h1

/-- Auxiliary state of `groupby('collected_at').head(n)`: `seen` records the
`collected_at` keys of the rows already scanned; a row is kept iff fewer than
`n` rows with its key were scanned before it. -/
def countKey (k : Int) : List Int → Nat
  | [] => 0
  | j :: s => (if j = k then 1 else 0) + countKey k s

/-- `groupby('collected_at').head(n)`: keeps, in order, the first `n` rows of
each `collected_at` group. -/
def groupbyHeadAux (n : Nat) (seen : List Int) : List SnapshotRecord → List SnapshotRecord
  | [] => []
  | r :: rest =>
    if countKey r.collected_at seen < n then
      r :: groupbyHeadAux n (r.collected_at :: seen) rest
    else
      groupbyHeadAux n (r.collected_at :: seen) rest

/-- Lines 35-36 (and 38-39) of `trending-discovery.py`: stable sort by
`(collected_at asc, downloads desc)` then `groupby('collected_at').head(n)`. -/
def truncateTopN (n : Nat) (df : List SnapshotRecord) : List SnapshotRecord :=
  groupbyHeadAux n [] (List.insertionSort lexLe df)

/-- `df[df['collected_at'] < cutoff]`. -/
def beforePart (df : List SnapshotRecord) (cut : Option Int) : List SnapshotRecord :=
  df.filter (fun r => ltOpt r.collected_at cut)

/-- `df[df['collected_at'] >= cutoff]`. -/
def afterPart (df : List SnapshotRecord) (cut : Option Int) : List SnapshotRecord :=
  df.filter (fun r => geOpt r.collected_at cut)

/-- Whether id `x` occurs in some record of `l`. -/
def hasId (l : List SnapshotRecord) (x : String) : Bool :=
  l.any (fun r => decide (r.id = x))

/-- Lines 51-59: `x ∈ after_ids - before_ids`. -/
def isNewId (df : List SnapshotRecord) (cut : Option Int) (x : String) : Bool :=
  hasId (afterPart df cut) x && !hasId (beforePart df cut) x

/-- `drop_duplicates('id', keep = 'first')` with an accumulator of already-seen
ids. -/
def dropDupAux (seen : List String) : List SnapshotRecord → List SnapshotRecord
  | [] => []
  | r :: rest =>
    if r.id ∈ seen then dropDupAux seen rest
    else r :: dropDupAux (r.id :: seen) rest

instance (x : String) (seen : List String) : Decidable (x ∈ seen) :=
  List.instDecidableMemOfLawfulBEq x seen

/-- `drop_duplicates('id', keep = 'first')`. -/
def dropDupById (l : List SnapshotRecord) : List SnapshotRecord :=
  dropDupAux [] l

/-- Lines 62-68: keep the rows whose id is new, sort by `collected_at`
descending, keep the first row of each id. -/
def resolveNew (df : List SnapshotRecord) (cut : Option Int) : List SnapshotRecord :=
  dropDupById (List.insertionSort collLe (df.filter (fun r => isNewId df cut r.id)))

/-- The cutoff computed by the engine: `latest - timedelta(days = days)` over
the truncated frames (lines 42-43). -/
def engineCutoff (models datasets : List SnapshotRecord) (days n : Nat) : Option Int :=
  subDays (latestDate (truncateTopN n models) (truncateTopN n datasets)) days

/-- The age cutoff computed by the engine:
`latest - timedelta(days = 30 * max_age_months)` (line 44). -/
def engineAgeCutoff (models datasets : List SnapshotRecord) (m n : Nat) : Option Int :=
  subDays (latestDate (truncateTopN n models) (truncateTopN n datasets)) (30 * m)

/-- The whole engine, `find_new_trending_items` of `trending-discovery.py`
(lines 10-98), minus the printing: truncation, shared latest date, window
cutoff, age cutoff, set difference, resolution, age filter, counts. -/
def find_new_trending_items (models datasets : List SnapshotRecord)
    (days : Nat) (max_age_months : Nat) (top_n_per_day : Nat) : DeltaResult :=
  let mdf := truncateTopN top_n_per_day models
  let ddf := truncateTopN top_n_per_day datasets
  let cutoff := engineCutoff models datasets days top_n_per_day
  let age_cutoff := engineAgeCutoff models datasets max_age_months top_n_per_day
  let new_models := (resolveNew mdf cutoff).filter (fun r => geOpt r.last_modified age_cutoff)
  let new_datasets := (resolveNew ddf cutoff).filter (fun r => geOpt r.last_modified age_cutoff)
  { new_models := new_models
    new_datasets := new_datasets
    new_models_count := new_models.length
    new_datasets_count := new_datasets.length }

/-- Unfolding of the models component of the engine. -/
theorem new_models_eq (models datasets : List SnapshotRecord) (d m n : Nat) :
    (find_new_trending_items models datasets d m n).new_models
      = (resolveNew (truncateTopN n models) (engineCutoff models datasets d n)).filter
          (fun r => geOpt r.last_modified (engineAgeCutoff models datasets m n)) := rfl

/-- Unfolding of the datasets component of the engine. -/
theorem new_datasets_eq (models datasets : List SnapshotRecord) (d m n : Nat) :
    (find_new_trending_items models datasets d m n).new_datasets
      = (resolveNew (truncateTopN n datasets) (engineCutoff models datasets d n)).filter
          (fun r => geOpt r.last_modified (engineAgeCutoff models datasets m n)) := rfl

/-! ### Stable sort and filtering -/

/-- Inserting an element that precedes the whole list just conses it on. -/
theorem orderedInsert_eq_cons {α : Type} (le : α → α → Prop) [DecidableRel le]
    (a : α) (m : List α) (h : ∀ c ∈ m, le a c) :
    List.orderedInsert le a m = a :: m := by
  cases m with
  | nil => rfl
  | cons c m => simp [List.orderedInsert, if_pos (h c (List.mem_cons_self c m))]

/-- Filtering away the inserted element leaves the filtered list unchanged. -/
theorem filter_orderedInsert_neg {α : Type} (le : α → α → Prop) [DecidableRel le]
    (p : α → Bool) (a : α) (hpa : p a = false) :
    ∀ l : List α, (List.orderedInsert le a l).filter p = l.filter p
  | [] => by simp [List.orderedInsert, hpa]
  | b :: l => by
    by_cases h : le a b
    · simp [List.orderedInsert, if_pos h, List.filter_cons, hpa]
    · simp only [List.orderedInsert, if_neg h, List.filter_cons]
      rw [filter_orderedInsert_neg le p a hpa l]

/-- On a sorted list, filtering commutes with ordered insertion of an element
that survives the filter, provided the two orders agree on surviving
elements. -/
theorem filter_orderedInsert_pos {α : Type} (le le' : α → α → Prop)
    [DecidableRel le] [DecidableRel le'] (p : α → Bool) (a : α)
    (hpa : p a = true)
    (hagree : ∀ b, p b = true → (le a b ↔ le' a b))
    (htrans : ∀ b c, le a b → le b c → le a c) :
    ∀ l : List α, l.Pairwise le →
      (List.orderedInsert le a l).filter p = List.orderedInsert le' a (l.filter p)
  | [], _ => by simp [List.orderedInsert, hpa]
  | b :: l, hl => by
    by_cases h : le a b
    · simp only [List.orderedInsert]
      rw [if_pos h]
      have hall : ∀ c ∈ (b :: l).filter p, le' a c := by
        intro c hc
        rcases List.mem_filter.mp hc with ⟨hmem, hpc⟩
        rcases List.mem_cons.mp hmem with rfl | hmem'
        · exact (hagree c hpc).mp h
        · exact (hagree c hpc).mp
            (htrans b c h ((List.pairwise_cons.mp hl).1 c hmem'))
      rw [orderedInsert_eq_cons le' a _ hall, List.filter_cons, hpa]
      simp
    · simp only [List.orderedInsert]
      rw [if_neg h]
      have htl : l.Pairwise le := (List.pairwise_cons.mp hl).2
      cases hpb : p b with
      | true =>
        have hab' : ¬ le' a b := fun hc => h ((hagree b hpb).mpr hc)
        rw [List.filter_cons, hpb]
        simp only [if_pos rfl]
        rw [List.filter_cons, hpb]
        simp only [if_pos rfl]
        simp only [List.orderedInsert]
        rw [if_neg hab']
        rw [filter_orderedInsert_pos le le' p a hpa hagree htrans l htl]
        simp
      | false =>
        rw [List.filter_cons, hpb]
        simp only [Bool.false_eq_true, if_false]
        rw [List.filter_cons, hpb]
        simp only [Bool.false_eq_true, if_false]
        rw [filter_orderedInsert_pos le le' p a hpa hagree htrans l htl]

/-- A stable sort commutes with filtering: sorting then filtering equals
filtering then sorting by any order that agrees on the surviving elements. -/
theorem filter_insertionSort {α : Type} (le le' : α → α → Prop)
    [DecidableRel le] [DecidableRel le'] [IsTotal α le] [IsTrans α le]
    (p : α → Bool)
    (hagree : ∀ a b, p a = true → p b = true → (le a b ↔ le' a b)) :
    ∀ l : List α,
      (List.insertionSort le l).filter p = List.insertionSort le' (l.filter p)
  | [] => rfl
  | a :: l => by
    show (List.orderedInsert le a (List.insertionSort le l)).filter p = _
    cases hpa : p a with
    | false =>
      rw [filter_orderedInsert_neg le p a hpa,
        filter_insertionSort le le' p hagree l, List.filter_cons, hpa]
      simp
    | true =>
      rw [filter_orderedInsert_pos le le' p a hpa (fun b hb => hagree a b hpa hb)
          (fun b c hab hbc => IsTrans.trans a b c hab hbc)
          (List.insertionSort le l) (List.sorted_insertionSort le l),
        filter_insertionSort le le' p hagree l, List.filter_cons, hpa]
      simp [List.insertionSort]

/-! ### Top-N truncation -/

theorem countKey_cons_self (k : Int) (s : List Int) :
    countKey k (k :: s) = 1 + countKey k s := by
  simp [countKey]

theorem countKey_cons_ne (k j : Int) (s : List Int) (h : j ≠ k) :
    countKey k (j :: s) = countKey k s := by
  simp [countKey, h]

/-- Restricting `groupby.head(n)` to one key keeps the first
`n - (rows of that key already seen)` rows of that key, in order. -/
theorem filter_groupbyHeadAux (n : Nat) (k : Int) :
    ∀ (m : List SnapshotRecord) (seen : List Int),
      (groupbyHeadAux n seen m).filter (fun r => decide (r.collected_at = k))
        = ((m.filter (fun r => decide (r.collected_at = k))).take (n - countKey k seen))
  | [], _ => by simp [groupbyHeadAux]
  | r :: m, seen => by
    by_cases hk : r.collected_at = k
    · subst hk
      have hpr : (decide (r.collected_at = r.collected_at)) = true := by simp
      by_cases hc : countKey r.collected_at seen < n
      · rw [groupbyHeadAux, if_pos hc, List.filter_cons, List.filter_cons, hpr]
        simp only [if_pos rfl]
        rw [filter_groupbyHeadAux n r.collected_at m (r.collected_at :: seen)]
        rw [countKey_cons_self]
        have h1 : n - countKey r.collected_at seen
            = (n - (1 + countKey r.collected_at seen)) + 1 := by omega
        rw [h1]
        simp
      · rw [groupbyHeadAux, if_neg hc]
        rw [filter_groupbyHeadAux n r.collected_at m (r.collected_at :: seen)]
        rw [List.filter_cons, hpr]
        simp only [if_pos rfl]
        rw [countKey_cons_self]
        have h1 : n - (1 + countKey r.collected_at seen) = 0 := by omega
        have h2 : n - countKey r.collected_at seen = 0 := by omega
        rw [h1, h2]
        simp
    · have hfilter : (r :: m).filter (fun r => decide (r.collected_at = k))
          = m.filter (fun r => decide (r.collected_at = k)) := by
        rw [List.filter_cons]
        simp [hk]
      rw [hfilter]
      by_cases hc : countKey r.collected_at seen < n
      · rw [groupbyHeadAux, if_pos hc, List.filter_cons]
        have hpr : (decide (r.collected_at = k)) = false := by simp [hk]
        rw [hpr]
        simp only [Bool.false_eq_true, if_false]
        rw [filter_groupbyHeadAux n k m (r.collected_at :: seen)]
        rw [countKey_cons_ne k r.collected_at seen hk]
      · rw [groupbyHeadAux, if_neg hc]
        rw [filter_groupbyHeadAux n k m (r.collected_at :: seen)]
        rw [countKey_cons_ne k r.collected_at seen hk]

/-! ### De-duplication by id -/

theorem dropDupAux_sublist : ∀ (m : List SnapshotRecord) (seen : List String),
    (dropDupAux seen m).Sublist m
  | [], _ => List.Sublist.refl []
  | r :: m, seen => by
    by_cases h : r.id ∈ seen
    · rw [dropDupAux, if_pos h]
      exact (dropDupAux_sublist m seen).cons r
    · rw [dropDupAux, if_neg h]
      exact (dropDupAux_sublist m (r.id :: seen)).cons₂ r

/-- A record survives de-duplication iff its id was unseen and it is the first
record with its id. -/
theorem mem_dropDupAux (r : SnapshotRecord) :
    ∀ (m : List SnapshotRecord) (seen : List String),
      r ∈ dropDupAux seen m ↔
        (r.id ∉ seen ∧ m.find? (fun s => decide (s.id = r.id)) = some r)
  | [], seen => by simp [dropDupAux]
  | s :: m, seen => by
    by_cases h : s.id ∈ seen
    · rw [dropDupAux, if_pos h]
      rw [mem_dropDupAux r m seen]
      by_cases hid : s.id = r.id
      · constructor
        · rintro ⟨hns, _⟩
          exact absurd (hid ▸ h) hns
        · rintro ⟨hns, _⟩
          exact absurd (hid ▸ h) hns
      · rw [List.find?_cons_of_neg]
        simp [hid]
    · rw [dropDupAux, if_neg h]
      by_cases hid : s.id = r.id
      · rw [List.find?_cons_of_pos _ (by simp [hid])]
        constructor
        · intro hm
          rcases List.mem_cons.mp hm with rfl | hm'
          · exact ⟨hid ▸ h, rfl⟩
          · rcases (mem_dropDupAux r m (s.id :: seen)).mp hm' with ⟨hns, _⟩
            exact absurd (List.mem_cons_self s.id seen) (hid ▸ hns)
        · rintro ⟨hns, hfind⟩
          exact List.mem_cons.mpr (Or.inl (Option.some_injective _ hfind).symm)
      · rw [List.find?_cons_of_neg _ (by simp [hid])]
        rw [List.mem_cons, mem_dropDupAux r m (s.id :: seen)]
        constructor
        · rintro (rfl | ⟨hns, hfind⟩)
          · exact absurd rfl hid
          · exact ⟨fun hc => hns (List.mem_cons_of_mem _ hc), hfind⟩
        · rintro ⟨hns, hfind⟩
          refine Or.inr ⟨?_, hfind⟩
          intro hc
          rcases List.mem_cons.mp hc with h1 | h2
          · exact hid h1.symm
          · exact hns h2

/-- De-duplication leaves pairwise-distinct ids. -/
theorem pairwise_dropDupAux : ∀ (m : List SnapshotRecord) (seen : List String),
    (dropDupAux seen m).Pairwise (fun r s => r.id ≠ s.id)
  | [], _ => List.Pairwise.nil
  | r :: m, seen => by
    by_cases h : r.id ∈ seen
    · rw [dropDupAux, if_pos h]
      exact pairwise_dropDupAux m seen
    · rw [dropDupAux, if_neg h]
      refine List.pairwise_cons.mpr ⟨?_, pairwise_dropDupAux m (r.id :: seen)⟩
      intro s hs
      rcases (mem_dropDupAux s m (r.id :: seen)).mp hs with ⟨hns, _⟩
      exact fun hc => hns (hc ▸ List.mem_cons_self r.id seen)

/-! ### find? helpers -/

/-- Filtering by a predicate implied by the search predicate does not change
the first hit. -/
theorem find?_filter_of_imp {α : Type} (p q : α → Bool)
    (h : ∀ s, q s = true → p s = true) :
    ∀ m : List α, (m.filter p).find? q = m.find? q
  | [] => rfl
  | s :: m => by
    cases hq : q s with
    | true =>
      rw [List.filter_cons_of_pos (by simp [h s hq]), List.find?_cons_of_pos _ hq,
        List.find?_cons_of_pos _ hq]
    | false =>
      rw [List.find?_cons_of_neg _ (by simp [hq])]
      cases hp : p s with
      | true =>
        rw [List.filter_cons_of_pos (by simp [hp]), List.find?_cons_of_neg _ (by simp [hq])]
        exact find?_filter_of_imp p q h m
      | false =>
        rw [List.filter_cons_of_neg (by simp [hp])]
        exact find?_filter_of_imp p q h m

/-- If the filter removes every possible hit, the search finds nothing. -/
theorem find?_filter_none {α : Type} (p q : α → Bool)
    (h : ∀ s, q s = true → p s = false) :
    ∀ m : List α, (m.filter p).find? q = none
  | [] => rfl
  | s :: m => by
    cases hp : p s with
    | true =>
      have hq : q s = false := by
        cases hqs : q s with
        | true => rw [h s hqs] at hp; exact absurd hp (by simp)
        | false => rfl
      rw [List.filter_cons_of_pos (by simp [hp]), List.find?_cons_of_neg _ (by simp [hq])]
      exact find?_filter_none p q h m
    | false =>
      rw [List.filter_cons_of_neg (by simp [hp])]
      exact find?_filter_none p q h m

/-- In a list sorted by `collected_at` descending, the first record with a
given id has the maximal `collected_at` among records with that id. -/
theorem find?_max_of_sorted (x : String) :
    ∀ m : List SnapshotRecord, m.Pairwise collLe →
      ∀ r, m.find? (fun s => decide (s.id = x)) = some r →
        ∀ s ∈ m, s.id = x → s.collected_at ≤ r.collected_at
  | [], _, r, hfind => by simp at hfind
  | t :: m, hm, r, hfind => by
    intro s hs hsx
    by_cases ht : t.id = x
    · rw [List.find?_cons_of_pos _ (by simp [ht])] at hfind
      have hrt : r = t := (Option.some_injective _ hfind).symm
      subst hrt
      rcases List.mem_cons.mp hs with rfl | hs'
      · exact le_refl _
      · exact (List.pairwise_cons.mp hm).1 s hs'
    · rw [List.find?_cons_of_neg _ (by simp [ht])] at hfind
      rcases List.mem_cons.mp hs with rfl | hs'
      · exact absurd hsx ht
      · exact find?_max_of_sorted x m (List.pairwise_cons.mp hm).2 r hfind s hs' hsx

/-- `hasId` as an existential. -/
theorem hasId_iff (l : List SnapshotRecord) (x : String) :
    hasId l x = true ↔ ∃ r, r ∈ l ∧ r.id = x := by
  simp [hasId, List.any_eq_true]

/-! ### Characterization of the resolution step -/

/-- The resolution step commutes into "sort the whole frame, then filter to the
new ids, then de-duplicate". -/
theorem resolveNew_eq (df : List SnapshotRecord) (cut : Option Int) :
    resolveNew df cut
      = dropDupById ((List.insertionSort collLe df).filter
          (fun r => isNewId df cut r.id)) := by
  unfold resolveNew
  rw [filter_insertionSort collLe collLe (fun r => isNewId df cut r.id)
      (fun a b _ _ => Iff.rfl) df]

/-- Membership in the resolved list: the id is new and the record is the first
record carrying it in the sorted frame. -/
theorem mem_resolveNew_iff (df : List SnapshotRecord) (cut : Option Int)
    (r : SnapshotRecord) :
    r ∈ resolveNew df cut ↔
      (isNewId df cut r.id = true ∧
        (List.insertionSort collLe df).find? (fun s => decide (s.id = r.id)) = some r) := by
  rw [resolveNew_eq, dropDupById, mem_dropDupAux]
  constructor
  · rintro ⟨-, hfind⟩
    have hmem := List.mem_of_find?_eq_some hfind
    have hnew : isNewId df cut r.id = true := by
      have := (List.mem_filter.mp hmem).2
      simpa using this
    refine ⟨hnew, ?_⟩
    rw [← hfind]
    exact (find?_filter_of_imp _ _ (fun s hq => by
      have hsx : s.id = r.id := by simpa using hq
      simp [hsx, hnew]) _).symm
  · rintro ⟨hnew, hfind⟩
    refine ⟨by simp, ?_⟩
    rw [find?_filter_of_imp _ _ (fun s hq => by
      have hsx : s.id = r.id := by simpa using hq
      simp [hsx, hnew]) _]
    exact hfind

/-- With a `NaT` cutoff every `>=` comparison fails, so the after partition is
empty. -/
theorem afterPart_none (df : List SnapshotRecord) : afterPart df none = [] := by
  simp [afterPart, geOpt]

/-- Unfolding the boolean set-difference test. -/
theorem isNewId_eq_true_iff (df : List SnapshotRecord) (cut : Option Int) (x : String) :
    isNewId df cut x = true ↔
      (hasId (afterPart df cut) x = true ∧ hasId (beforePart df cut) x = false) := by
  simp [isNewId]

/-- Membership (by id) in a kind's final result list: the id must be new for
the window and the id's representative record — the first record carrying it in
the `collected_at`-descending ordering of the truncated frame — must pass the
age filter. -/
theorem hasId_final_iff (df : List SnapshotRecord) (cut age : Option Int) (x : String) :
    hasId ((resolveNew df cut).filter (fun r => geOpt r.last_modified age)) x = true
      ↔ (isNewId df cut x = true ∧
          ∃ r, (List.insertionSort collLe df).find? (fun s => decide (s.id = x)) = some r
               ∧ geOpt r.last_modified age = true) := by
  rw [hasId_iff]
  constructor
  · rintro ⟨r, hmem, hx⟩
    rcases List.mem_filter.mp hmem with ⟨hres, hage⟩
    rcases (mem_resolveNew_iff df cut r).mp hres with ⟨hnew, hfind⟩
    subst hx
    exact ⟨hnew, r, hfind, hage⟩
  · rintro ⟨hnew, r, hfind, hage⟩
    have hx : r.id = x := by
      have := List.find?_some hfind
      simpa using this
    subst hx
    exact ⟨r, List.mem_filter.mpr ⟨(mem_resolveNew_iff df cut r).mpr ⟨hnew, hfind⟩, hage⟩, rfl⟩

/-! ### Concrete snapshot records used in witnesses and counterexamples -/

/-- A record that is new in the window but whose `last_modified` is far older
than the age cutoff. -/
def recStale : SnapshotRecord :=
  { id := "org/modelA", author := "org", downloads := 5, likes := 1, tags := [],
    last_modified := 0, created_at := none, sha := "a", collected_at := 10000000 }

/-- A record collected exactly at the window cutoff of the histories below. -/
def recOld : SnapshotRecord :=
  { id := "org/old", author := "org", downloads := 10, likes := 2, tags := [],
    last_modified := 1000000, created_at := none, sha := "b", collected_at := 1000000 }

/-- A record in the most recent generation of the histories below. -/
def recFresh : SnapshotRecord :=
  { id := "org/fresh", author := "org", downloads := 20, likes := 3, tags := [],
    last_modified := 1604800, created_at := none, sha := "c", collected_at := 1604800 }

/-- An earlier appearance of `recFresh`'s id, still inside the window. -/
def recFreshDup : SnapshotRecord :=
  { id := "org/fresh", author := "org", downloads := 1, likes := 0, tags := [],
    last_modified := 1300000, created_at := none, sha := "e", collected_at := 1300000 }

/-- A dataset-kind record, used to show the shared latest timestamp. -/
def recDs : SnapshotRecord :=
  { id := "ds/one", author := "ds", downloads := 3, likes := 0, tags := [],
    last_modified := 1200000, created_at := none, sha := "d", collected_at := 1200000 }

/-- C1: the claim's biconditional fails as stated: `"org/modelA"` occurs in the
after partition and in no before record, yet the engine's result for the kind
is empty, because the (always-on) age filter removes its representative. -/
theorem C1_counterexample :
    hasId (afterPart (truncateTopN 100 [recStale]) (engineCutoff [recStale] [] 7 100))
        "org/modelA" = true
    ∧ hasId (beforePart (truncateTopN 100 [recStale]) (engineCutoff [recStale] [] 7 100))
        "org/modelA" = false
    ∧ hasId (find_new_trending_items [recStale] [] 7 1 100).new_models "org/modelA" = false := by
  constructor
  · rfl
  · constructor
    · rfl
    · rfl

/-- C1 (amended): for every loaded history and id `x`, `x` appears in the
result of a kind iff `x` occurs in some record of that kind's after partition,
in no record of its before partition, and the representative record of `x`
(the first record with id `x` in the `collected_at`-descending ordering of the
truncated frame) has `last_modified >= age_cutoff`. -/
theorem C1_result_membership (models datasets : List SnapshotRecord)
    (days max_age_months top_n : Nat) (x : String) :
    (hasId (find_new_trending_items models datasets days max_age_months top_n).new_models x = true
      ↔ (hasId (afterPart (truncateTopN top_n models) (engineCutoff models datasets days top_n)) x = true
         ∧ hasId (beforePart (truncateTopN top_n models) (engineCutoff models datasets days top_n)) x = false
         ∧ ∃ r, (List.insertionSort collLe (truncateTopN top_n models)).find?
                  (fun s => decide (s.id = x)) = some r
                ∧ geOpt r.last_modified (engineAgeCutoff models datasets max_age_months top_n) = true))
    ∧ (hasId (find_new_trending_items models datasets days max_age_months top_n).new_datasets x = true
      ↔ (hasId (afterPart (truncateTopN top_n datasets) (engineCutoff models datasets days top_n)) x = true
         ∧ hasId (beforePart (truncateTopN top_n datasets) (engineCutoff models datasets days top_n)) x = false
         ∧ ∃ r, (List.insertionSort collLe (truncateTopN top_n datasets)).find?
                  (fun s => decide (s.id = x)) = some r
                ∧ geOpt r.last_modified (engineAgeCutoff models datasets max_age_months top_n) = true)) := by
  constructor
  · rw [new_models_eq, hasId_final_iff, isNewId_eq_true_iff]
    tauto
  · rw [new_datasets_eq, hasId_final_iff, isNewId_eq_true_iff]
    tauto

/-- C2: a record of a truncated frame (of either kind) whose `collected_at`
equals the engine's cutoff (`latest - days`) is assigned to the after
partition and never to the before partition. -/
theorem C2_boundary_inclusive (models datasets df : List SnapshotRecord)
    (days top_n : Nat) (r : SnapshotRecord) (c : Int)
    (hc : engineCutoff models datasets days top_n = some c)
    (hr : r ∈ df) (hb : r.collected_at = c) :
    r ∈ afterPart df (engineCutoff models datasets days top_n)
    ∧ r ∉ beforePart df (engineCutoff models datasets days top_n) := by
  constructor
  · refine List.mem_filter.mpr ⟨hr, ?_⟩
    rw [hc]
    simp [geOpt, hb]
  · intro hmem
    have hlt := (List.mem_filter.mp hmem).2
    rw [hc] at hlt
    simp [ltOpt, hb] at hlt

/-- C2 witness: `recOld` sits exactly at the cutoff of the two-generation
history and lands in the after partition. -/
theorem C2_boundary_inclusive_witness :
    recOld ∈ afterPart (truncateTopN 100 [recOld, recFresh])
        (engineCutoff [recOld, recFresh] [] 7 100)
    ∧ recOld ∉ beforePart (truncateTopN 100 [recOld, recFresh])
        (engineCutoff [recOld, recFresh] [] 7 100) :=
  C2_boundary_inclusive [recOld, recFresh] [] (truncateTopN 100 [recOld, recFresh])
    7 100 recOld 1000000 (by decide) (by decide) rfl

/-! ### Shape of the final result lists -/

/-- The final list of a kind never holds two records with the same id. -/
theorem final_pairwise_ids (df : List SnapshotRecord) (cut age : Option Int) :
    ((resolveNew df cut).filter (fun r => geOpt r.last_modified age)).Pairwise
      (fun r s => r.id ≠ s.id) :=
  (pairwise_dropDupAux _ _).sublist (List.filter_sublist _)

/-- The final list of a kind is a sublist of the frame sorted by
`collected_at` descending. -/
theorem final_sublist_sort (df : List SnapshotRecord) (cut age : Option Int) :
    ((resolveNew df cut).filter (fun r => geOpt r.last_modified age)).Sublist
      (List.insertionSort collLe df) := by
  rw [resolveNew_eq]
  exact (List.filter_sublist _).trans
    ((dropDupAux_sublist _ _).trans (List.filter_sublist _))

/-- The final list of a kind is sorted by `collected_at` descending. -/
theorem final_sorted (df : List SnapshotRecord) (cut age : Option Int) :
    ((resolveNew df cut).filter (fun r => geOpt r.last_modified age)).Pairwise collLe :=
  (List.sorted_insertionSort collLe df).sublist (final_sublist_sort df cut age)

/-- Every record of a kind's final list lies in the after partition and has the
maximal `collected_at` among the after-partition records of its id. -/
theorem mem_final_after (df : List SnapshotRecord) (cut age : Option Int)
    (r : SnapshotRecord)
    (hr : r ∈ (resolveNew df cut).filter (fun s => geOpt s.last_modified age)) :
    r ∈ afterPart df cut ∧
      ∀ s ∈ afterPart df cut, s.id = r.id → s.collected_at ≤ r.collected_at := by
  rcases List.mem_filter.mp hr with ⟨hres, -⟩
  rcases (mem_resolveNew_iff df cut r).mp hres with ⟨hnew, hfind⟩
  have hmem_sort : r ∈ List.insertionSort collLe df := List.mem_of_find?_eq_some hfind
  have hmem : r ∈ df := (List.perm_insertionSort collLe df).subset hmem_sort
  cases hcut : cut with
  | none =>
    rw [hcut] at hnew
    rcases (isNewId_eq_true_iff df none r.id).mp hnew with ⟨hafter, -⟩
    rw [afterPart_none] at hafter
    simp [hasId] at hafter
  | some c =>
    subst hcut
    rcases (isNewId_eq_true_iff df (some c) r.id).mp hnew with ⟨-, hbefore⟩
    have hnotlt : ltOpt r.collected_at (some c) = false := by
      cases hlt : ltOpt r.collected_at (some c) with
      | false => rfl
      | true =>
        have hhas : hasId (beforePart df (some c)) r.id = true :=
          (hasId_iff _ _).mpr ⟨r, List.mem_filter.mpr ⟨hmem, hlt⟩, rfl⟩
        rw [hhas] at hbefore
        cases hbefore
    have hge : geOpt r.collected_at (some c) = true := by
      simp only [ltOpt, decide_eq_false_iff_not, not_lt] at hnotlt
      simp [geOpt, hnotlt]
    refine ⟨List.mem_filter.mpr ⟨hmem, hge⟩, ?_⟩
    intro s hs hsid
    have hss : s ∈ List.insertionSort collLe df :=
      (List.perm_insertionSort collLe df).symm.subset (List.mem_filter.mp hs).1
    exact find?_max_of_sorted r.id (List.insertionSort collLe df)
      (List.sorted_insertionSort collLe df) r hfind s hss hsid

/-- C3: each result sequence holds at most one record per id, each surviving
record is an after-partition record with the maximal `collected_at` among its
id's after-partition records, and the sequence is sorted by `collected_at`
descending. -/
theorem C3_result_unique_sorted (models datasets : List SnapshotRecord) (d m n : Nat) :
    ((find_new_trending_items models datasets d m n).new_models.Pairwise
        (fun r s => r.id ≠ s.id)
      ∧ (find_new_trending_items models datasets d m n).new_models.Pairwise collLe
      ∧ ∀ r ∈ (find_new_trending_items models datasets d m n).new_models,
          r ∈ afterPart (truncateTopN n models) (engineCutoff models datasets d n)
          ∧ ∀ s ∈ afterPart (truncateTopN n models) (engineCutoff models datasets d n),
              s.id = r.id → s.collected_at ≤ r.collected_at)
    ∧ ((find_new_trending_items models datasets d m n).new_datasets.Pairwise
        (fun r s => r.id ≠ s.id)
      ∧ (find_new_trending_items models datasets d m n).new_datasets.Pairwise collLe
      ∧ ∀ r ∈ (find_new_trending_items models datasets d m n).new_datasets,
          r ∈ afterPart (truncateTopN n datasets) (engineCutoff models datasets d n)
          ∧ ∀ s ∈ afterPart (truncateTopN n datasets) (engineCutoff models datasets d n),
              s.id = r.id → s.collected_at ≤ r.collected_at) := by
  refine ⟨⟨?_, ?_, ?_⟩, ?_, ?_, ?_⟩
  · rw [new_models_eq]
    exact final_pairwise_ids _ _ _
  · rw [new_models_eq]
    exact final_sorted _ _ _
  · rw [new_models_eq]
    exact fun r hr => mem_final_after _ _ _ r hr
  · rw [new_datasets_eq]
    exact final_pairwise_ids _ _ _
  · rw [new_datasets_eq]
    exact final_sorted _ _ _
  · rw [new_datasets_eq]
    exact fun r hr => mem_final_after _ _ _ r hr

/-- C3 witness at a concrete three-record history with a duplicated id. -/
theorem C3_result_unique_sorted_witness :
    recFresh ∈ afterPart (truncateTopN 100 [recOld, recFreshDup, recFresh])
        (engineCutoff [recOld, recFreshDup, recFresh] [] 7 100)
    ∧ recFreshDup.collected_at ≤ recFresh.collected_at :=
  ⟨((C3_result_unique_sorted [recOld, recFreshDup, recFresh] [] 7 1 100).1.2.2
      recFresh (by decide)).1,
    ((C3_result_unique_sorted [recOld, recFreshDup, recFresh] [] 7 1 100).1.2.2
      recFresh (by decide)).2 recFreshDup (by decide) (by decide)⟩

/-- C4: the claim fails as stated: with `max_age_months = 0` the resolved new
item `recStale` is removed on account of its `last_modified`, so the result is
not the unfiltered resolved set. -/
theorem C4_counterexample :
    (find_new_trending_items [recStale] [] 7 0 100).new_models = []
    ∧ resolveNew (truncateTopN 100 [recStale]) (engineCutoff [recStale] [] 7 100)
        = [recStale] := by
  constructor
  · rfl
  · rfl

/-- C4 (amended): the recency filter is never disabled.  With
`max_age_months = 0` the age cutoff collapses to `latest` itself, and each
kind's result is the resolved list filtered to `last_modified >= latest`. -/
theorem C4_age_filter_zero (models datasets : List SnapshotRecord) (d n : Nat) :
    engineAgeCutoff models datasets 0 n
        = latestDate (truncateTopN n models) (truncateTopN n datasets)
    ∧ (find_new_trending_items models datasets d 0 n).new_models
        = (resolveNew (truncateTopN n models) (engineCutoff models datasets d n)).filter
            (fun r => geOpt r.last_modified
              (latestDate (truncateTopN n models) (truncateTopN n datasets)))
    ∧ (find_new_trending_items models datasets d 0 n).new_datasets
        = (resolveNew (truncateTopN n datasets) (engineCutoff models datasets d n)).filter
            (fun r => geOpt r.last_modified
              (latestDate (truncateTopN n models) (truncateTopN n datasets))) := by
  have h : engineAgeCutoff models datasets 0 n
      = latestDate (truncateTopN n models) (truncateTopN n datasets) := by
    unfold engineAgeCutoff subDays timedeltaDays
    cases latestDate (truncateTopN n models) (truncateTopN n datasets) with
    | none => rfl
    | some v => simp
  exact ⟨h, by rw [new_models_eq, h], by rw [new_datasets_eq, h]⟩

/-- C5: the claim fails as stated: on a history with no records at all the
engine does not fail; `NaT` propagation empties both partitions and it returns
the empty result with zero counts. -/
theorem C5_counterexample :
    find_new_trending_items [] [] 7 1 100
      = { new_models := [], new_datasets := [],
          new_models_count := 0, new_datasets_count := 0 } := rfl

/-- C5 (amended): for every parameter choice, an empty loaded history yields
the empty `DeltaResult` (no failure): `Series.max()` is `NaT` on the empty
frames, every comparison against the `NaT` cutoffs is false, and both result
lists come out empty. -/
theorem C5_empty_history (d m n : Nat) :
    find_new_trending_items [] [] d m n
      = { new_models := [], new_datasets := [],
          new_models_count := 0, new_datasets_count := 0 } := rfl

/-- C6: restricted to any one generation (one `collected_at` key `k`), the
top-N truncation keeps exactly the first `n` records of that generation
reordered by `downloads` descending with ties in original relative order. -/
theorem C6_truncation_per_generation (n : Nat) (l : List SnapshotRecord) (k : Int) :
    (truncateTopN n l).filter (fun r => decide (r.collected_at = k))
      = (List.insertionSort downLe
          (l.filter (fun r => decide (r.collected_at = k)))).take n := by
  unfold truncateTopN
  rw [filter_groupbyHeadAux n k (List.insertionSort lexLe l) []]
  have hagree : ∀ a b : SnapshotRecord,
      (decide (a.collected_at = k)) = true → (decide (b.collected_at = k)) = true →
        (lexLe a b ↔ downLe a b) := by
    intro a b ha hb
    have ha' : a.collected_at = k := by simpa using ha
    have hb' : b.collected_at = k := by simpa using hb
    unfold lexLe downLe
    constructor
    · rintro (hlt | ⟨-, hd⟩)
      · rw [ha', hb'] at hlt
        exact absurd hlt (lt_irrefl k)
      · exact hd
    · intro hd
      exact Or.inr ⟨ha'.trans hb'.symm, hd⟩
  rw [filter_insertionSort lexLe downLe _ hagree l]
  simp [countKey]

/-- C8: the recency filter is a pure subset operation: each kind's final result
is a sublist of the unfiltered resolved list, so it can only drop records,
never add or alter one. -/
theorem C8_age_filter_sublist (models datasets : List SnapshotRecord) (d m n : Nat) :
    ((find_new_trending_items models datasets d m n).new_models.Sublist
        (resolveNew (truncateTopN n models) (engineCutoff models datasets d n)))
    ∧ ((find_new_trending_items models datasets d m n).new_datasets.Sublist
        (resolveNew (truncateTopN n datasets) (engineCutoff models datasets d n))) := by
  constructor
  · rw [new_models_eq]
    exact List.filter_sublist _
  · rw [new_datasets_eq]
    exact List.filter_sublist _

/-- Lowering the cutoff preserves membership in `after_ids - before_ids`. -/
theorem isNewId_mono (df : List SnapshotRecord) (c1 c2 : Int) (hc : c2 ≤ c1)
    (x : String) (h : isNewId df (some c1) x = true) :
    isNewId df (some c2) x = true := by
  rcases (isNewId_eq_true_iff df (some c1) x).mp h with ⟨hafter, hbefore⟩
  rw [isNewId_eq_true_iff]
  constructor
  · rcases (hasId_iff _ _).mp hafter with ⟨r, hr, hx⟩
    rcases List.mem_filter.mp hr with ⟨hmem, hge⟩
    refine (hasId_iff _ _).mpr ⟨r, List.mem_filter.mpr ⟨hmem, ?_⟩, hx⟩
    simp only [geOpt, decide_eq_true_eq] at hge ⊢
    exact le_trans hc hge
  · cases hb : hasId (beforePart df (some c2)) x with
    | false => rfl
    | true =>
      rcases (hasId_iff _ _).mp hb with ⟨r, hr, hx⟩
      rcases List.mem_filter.mp hr with ⟨hmem, hlt⟩
      have hb1 : hasId (beforePart df (some c1)) x = true := by
        refine (hasId_iff _ _).mpr ⟨r, List.mem_filter.mpr ⟨hmem, ?_⟩, hx⟩
        simp only [ltOpt, decide_eq_true_eq] at hlt ⊢
        exact lt_of_lt_of_le hlt hc
      rw [hb1] at hbefore
      cases hbefore

/-- With the frame, the latest timestamp and the age cutoff held fixed,
widening the window preserves id membership in the final list. -/
theorem final_hasId_mono (df : List SnapshotRecord) (latest : Option Int)
    (d1 d2 : Nat) (age : Option Int) (x : String) (hd : d1 ≤ d2)
    (h : hasId ((resolveNew df (subDays latest d1)).filter
          (fun r => geOpt r.last_modified age)) x = true) :
    hasId ((resolveNew df (subDays latest d2)).filter
          (fun r => geOpt r.last_modified age)) x = true := by
  rw [hasId_final_iff] at h ⊢
  rcases h with ⟨hnew, hrep⟩
  refine ⟨?_, hrep⟩
  cases latest with
  | none =>
    rcases (isNewId_eq_true_iff df none x).mp hnew with ⟨hafter, -⟩
    rw [afterPart_none] at hafter
    simp [hasId] at hafter
  | some L =>
    show isNewId df (some (L - timedeltaDays d2)) x = true
    have hnew' : isNewId df (some (L - timedeltaDays d1)) x = true := hnew
    refine isNewId_mono df (L - timedeltaDays d1) (L - timedeltaDays d2) ?_ x hnew'
    unfold timedeltaDays
    omega

/-- C7: with the truncation cap and the recency bound held fixed, every id in
the result for lookback `d1` is still in the result for any lookback
`d2 >= d1`, for both kinds. -/
theorem C7_window_monotone (models datasets : List SnapshotRecord)
    (d1 d2 m n : Nat) (x : String) (hd : d1 ≤ d2) :
    (hasId (find_new_trending_items models datasets d1 m n).new_models x = true →
       hasId (find_new_trending_items models datasets d2 m n).new_models x = true)
    ∧ (hasId (find_new_trending_items models datasets d1 m n).new_datasets x = true →
       hasId (find_new_trending_items models datasets d2 m n).new_datasets x = true) := by
  constructor
  · intro h
    rw [new_models_eq] at h ⊢
    exact final_hasId_mono _ _ d1 d2 _ x hd h
  · intro h
    rw [new_datasets_eq] at h ⊢
    exact final_hasId_mono _ _ d1 d2 _ x hd h

/-- C7 witness: `org/fresh` is new with a 7-day window and stays new with an
8-day window. -/
theorem C7_window_monotone_witness :
    hasId (find_new_trending_items [recOld, recFresh] [] 8 1 100).new_models
      "org/fresh" = true :=
  (C7_window_monotone [recOld, recFresh] [] 7 8 1 100 "org/fresh" (by decide)).1
    (by decide)

/-- C9: the engine is a pure function of the loaded history and the three
parameters: equal parameters on the same history give identical results
(records, order and counts). -/
theorem C9_deterministic (models datasets : List SnapshotRecord)
    (d1 m1 n1 d2 m2 n2 : Nat) (hd : d1 = d2) (hm : m1 = m2) (hn : n1 = n2) :
    find_new_trending_items models datasets d1 m1 n1
      = find_new_trending_items models datasets d2 m2 n2 := by
  subst hd
  subst hm
  subst hn
  rfl

/-- C9 witness. -/
theorem C9_deterministic_witness :
    find_new_trending_items [recOld, recFresh] [] 7 1 100
      = find_new_trending_items [recOld, recFresh] [] 7 1 100 :=
  C9_deterministic [recOld, recFresh] [] 7 1 100 7 1 100 rfl rfl rfl

/-! ### The shared latest timestamp -/

theorem le_foldlMax : ∀ (rest : List SnapshotRecord) (a : Int),
    a ≤ rest.foldl (fun acc s => max acc s.collected_at) a
  | [], a => le_refl a
  | s :: rest, a =>
    le_trans (le_max_left a s.collected_at) (le_foldlMax rest (max a s.collected_at))

theorem mem_le_foldlMax : ∀ (rest : List SnapshotRecord) (a : Int) (s : SnapshotRecord),
    s ∈ rest → s.collected_at ≤ rest.foldl (fun acc t => max acc t.collected_at) a
  | [], _, _, h => absurd h (List.not_mem_nil _)
  | t :: rest, a, s, h => by
    rcases List.mem_cons.mp h with rfl | h2
    · exact le_trans (le_max_right a s.collected_at)
        (le_foldlMax rest (max a s.collected_at))
    · exact mem_le_foldlMax rest (max a t.collected_at) s h2

theorem foldlMax_attained : ∀ (rest : List SnapshotRecord) (a : Int),
    rest.foldl (fun acc s => max acc s.collected_at) a = a
      ∨ ∃ s ∈ rest, rest.foldl (fun acc t => max acc t.collected_at) a = s.collected_at
  | [], a => Or.inl rfl
  | t :: rest, a => by
    rcases foldlMax_attained rest (max a t.collected_at) with h | ⟨s, hs, h⟩
    · rcases max_choice a t.collected_at with hm | hm
      · exact Or.inl (by rw [List.foldl_cons, h, hm])
      · exact Or.inr ⟨t, List.mem_cons_self t rest, by rw [List.foldl_cons, h, hm]⟩
    · exact Or.inr ⟨s, List.mem_cons_of_mem t hs, by rw [List.foldl_cons, h]⟩

/-- The `collected_at` maximum of a nonempty frame is attained and bounds every
record. -/
theorem seriesMax_spec (df : List SnapshotRecord) (h : df ≠ []) :
    ∃ M, seriesMax df = some M ∧ (∃ r ∈ df, r.collected_at = M)
      ∧ ∀ r ∈ df, r.collected_at ≤ M := by
  cases df with
  | nil => exact absurd rfl h
  | cons r rest =>
    refine ⟨_, rfl, ?_, ?_⟩
    · rcases foldlMax_attained rest r.collected_at with h1 | ⟨s, hs, h1⟩
      · exact ⟨r, List.mem_cons_self r rest, h1.symm⟩
      · exact ⟨s, List.mem_cons_of_mem r hs, h1.symm⟩
    · intro s hs
      rcases List.mem_cons.mp hs with rfl | h2
      · exact le_foldlMax rest s.collected_at
      · exact mem_le_foldlMax rest r.collected_at s h2

/-- On two real timestamps, Python's `max` is the true maximum. -/
theorem pyMax_some_some (a b : Int) : pyMax (some a) (some b) = some (max a b) := by
  unfold pyMax pyGt
  by_cases h : a < b
  · simp [h, max_eq_right (le_of_lt h)]
  · simp [h, max_eq_left (not_lt.mp h)]

/-- Truncation with a cap of at least one keeps a nonempty frame nonempty. -/
theorem truncateTopN_ne_nil (n : Nat) (l : List SnapshotRecord)
    (hl : l ≠ []) (hn : 1 ≤ n) : truncateTopN n l ≠ [] := by
  unfold truncateTopN
  have hs : List.insertionSort lexLe l ≠ [] := by
    intro hc
    have hp := List.perm_insertionSort lexLe l
    rw [hc] at hp
    exact hl hp.nil_eq.symm
  cases he : List.insertionSort lexLe l with
  | nil => exact absurd he hs
  | cons r rest =>
    rw [groupbyHeadAux, if_pos (by simpa [countKey] using hn)]
    simp

/-- C10: with nonempty histories and a positive cap, the engine computes one
shared latest timestamp: the joint maximum of `collected_at` over the two
truncated frames, attained in one of them and bounding both; both the window
cutoff and the age cutoff of both kinds are offsets of this single value, so
one kind's partition depends on the other kind's collection timestamps. -/
theorem C10_shared_latest (models datasets : List SnapshotRecord) (d m n : Nat)
    (hmo : models ≠ []) (hda : datasets ≠ []) (hn : 1 ≤ n) :
    ∃ L, latestDate (truncateTopN n models) (truncateTopN n datasets) = some L
      ∧ (∃ r, (r ∈ truncateTopN n models ∨ r ∈ truncateTopN n datasets)
              ∧ r.collected_at = L)
      ∧ (∀ r, (r ∈ truncateTopN n models ∨ r ∈ truncateTopN n datasets) →
              r.collected_at ≤ L)
      ∧ engineCutoff models datasets d n = some (L - timedeltaDays d)
      ∧ engineAgeCutoff models datasets m n = some (L - timedeltaDays (30 * m)) := by
  rcases seriesMax_spec (truncateTopN n models)
    (truncateTopN_ne_nil n models hmo hn) with ⟨M, hM, ⟨rM, hrM, hrMe⟩, hMb⟩
  rcases seriesMax_spec (truncateTopN n datasets)
    (truncateTopN_ne_nil n datasets hda hn) with ⟨D, hD, ⟨rD, hrD, hrDe⟩, hDb⟩
  have hlat : latestDate (truncateTopN n models) (truncateTopN n datasets)
      = some (max M D) := by
    rw [latestDate, hM, hD, pyMax_some_some]
  refine ⟨max M D, hlat, ?_, ?_, ?_, ?_⟩
  · rcases max_choice M D with hm1 | hm1
    · exact ⟨rM, Or.inl hrM, by rw [hrMe, hm1]⟩
    · exact ⟨rD, Or.inr hrD, by rw [hrDe, hm1]⟩
  · rintro r (hr | hr)
    · exact le_trans (hMb r hr) (le_max_left M D)
    · exact le_trans (hDb r hr) (le_max_right M D)
  · rw [engineCutoff, hlat]
    rfl
  · rw [engineAgeCutoff, hlat]
    rfl

/-- C10 witness: one model record and one dataset record; the dataset record is
younger and supplies the shared latest timestamp. -/
theorem C10_shared_latest_witness :
    ∃ L, latestDate (truncateTopN 100 [recOld]) (truncateTopN 100 [recDs]) = some L
      ∧ (∃ r, (r ∈ truncateTopN 100 [recOld] ∨ r ∈ truncateTopN 100 [recDs])
              ∧ r.collected_at = L)
      ∧ (∀ r, (r ∈ truncateTopN 100 [recOld] ∨ r ∈ truncateTopN 100 [recDs]) →
              r.collected_at ≤ L)
      ∧ engineCutoff [recOld] [recDs] 7 100 = some (L - timedeltaDays 7)
      ∧ engineAgeCutoff [recOld] [recDs] 1 100 = some (L - timedeltaDays (30 * 1)) :=
  C10_shared_latest [recOld] [recDs] 7 1 100 (by simp) (by simp) (by omega)
